import Mathlib

/-!
Shallow embedding of the MVCC key-value engine consisting of
`clientv3/driver/generic.go` (the `Generic` driver), the SQL semantics it is
instantiated with by `clientv3/driver/sqlite/sqlite.go`, and the response
shaping of `clientv3/kv.go`.

Modelling conventions:
- the relational backend's table is a `List KeyValue` in insertion order
  (the table is append-only: `InsertSQL` is the only write besides the
  ttl cleanup sweep, which is outside the mutation/query logic modelled here);
- Go `int64` fields are `Int` (no arithmetic in the engine can overflow in any
  execution reachable from realistic inputs, and no claim concerns wrap-around);
- Go `[]byte` values are `String`;
- the `changes` channel of `Generic` is modelled as the list of published
  events in publication order;
- a Go `panic` is modelled as the `none` case of an `Option` result;
- SQL `LIKE`/`MAX`/`LIMIT`/aggregation semantics of the queries in
  `sqlite.go` are spelled out as list functions (`sqlListCurrent`,
  `sqlReplay`, `sqlMaxRevision`, `sqlInsert`).
-/

deriving instance DecidableEq for Except

namespace EtcdShim

/-- One history row of the `key_value` table; mirrors `driver.KeyValue`
(scanned in `generic.go` `scan`) and the sqlite schema column set. -/
structure KeyValue where
  id : Int := 0
  key : String := ""
  value : String := ""
  oldValue : String := ""
  oldRevision : Int := 0
  createRevision : Int := 0
  revision : Int := 0
  ttl : Int := 0
  version : Int := 0
  del : Int := 0
deriving DecidableEq, Repr

/-- The backend table: rows in insertion order. -/
abbrev DB := List KeyValue

/-- A scanned row set (used in signatures inside the `Generic` namespace,
where the bare name `List` would refer to `Generic.List`). -/
abbrev Rows := List KeyValue

/-- `strings.HasSuffix` / `String.endsWith`, computed on the character
lists so that proofs can evaluate it. -/
def strHasSuffix (s suffix : String) : Bool :=
  suffix.data.isSuffixOf s.data

/-- `String.dropRight`, computed on the character list. -/
def strDropRight (s : String) (n : Nat) : String :=
  String.mk (s.data.take (s.data.length - n))

/-- `strings.HasPrefix` / `String.startsWith`, computed on the character
lists. -/
def strStartsWith (s pre : String) : Bool :=
  pre.data.isPrefixOf s.data

/-- SQL `LIKE` as used by this codebase: every pattern is either a concrete
key (no wildcard) or a prefix pattern ending in the `%` marker. -/
def likeMatch (pat key : String) : Bool :=
  if strHasSuffix pat "%" then strStartsWith key (strDropRight pat 1)
  else key == pat

/-- SQLite `LIMIT n`: a negative bound means no limit, otherwise at most `n`
rows are produced. -/
def sqlLimit (lim : Int) (rows : List KeyValue) : List KeyValue :=
  if lim < 0 then rows else rows.take lim.toNat

/-- Row `r` has the maximum `revision` among the table's rows for its key
(the join condition of `baseList` in `sqlite.go`). -/
def isCurrentRow (db : DB) (r : KeyValue) : Bool :=
  db.all fun s => s.key != r.key || decide (s.revision ≤ r.revision)

/-- `ListSQL` (`baseList` with no revision bound): rows that are current for
their key, restricted to `name LIKE pat`, `LIMIT lim`; row order follows the
table. -/
def sqlListCurrent (db : DB) (pat : String) (lim : Int) : List KeyValue :=
  sqlLimit lim (db.filter fun r => isCurrentRow db r && likeMatch pat r.key)

/-- `ReplaySQL`: every row with `name LIKE key` and `revision <= rev`, in
table order (ascending revision for a single key, since the table is
append-only and revisions increase). -/
def sqlReplay (db : DB) (key : String) (rev : Int) : List KeyValue :=
  db.filter fun r => likeMatch key r.key && decide (r.revision ≤ rev)

/-- `SELECT MAX(revision) FROM key_value` (`GetRevisionSQL`); the NULL
produced by an empty table arrives as 0 through `sql.NullInt64`. -/
def sqlMaxRevision (db : DB) : Int :=
  match db.map KeyValue.revision with
  | [] => 0
  | r :: rs => rs.foldl max r

/-- The sqlite `id` column is `INTEGER primary key autoincrement`. -/
def sqlNextId (db : DB) : Int :=
  (db.map KeyValue.id).foldl max 0 + 1

/-- `InsertSQL`: append one row; the backend assigns the `id` column. -/
def sqlInsert (db : DB) (r : KeyValue) : DB :=
  db ++ [{ r with id := sqlNextId db }]

/-- Error taxonomy of the driver (`ErrNotExists`, `ErrRevisionMatch`),
returned by `Generic.mod`. -/
inductive DriverError where
  | notExists
  | revisionMatch
deriving DecidableEq, Repr

/-- The `Generic` driver state: the backend table, the in-memory revision
counter, and the events published to the `changes` channel. -/
structure Generic where
  db : DB := []
  revision : Int := 0
  changes : List KeyValue := []
deriving DecidableEq, Repr

/-- `Generic.Start`: initialize the revision counter from
`SELECT MAX(revision)`; a 0 (empty table) makes the counter start at 1.
(The ttl cleanup goroutine it also spawns is outside this model.) -/
def Generic.Start (db : DB) : Generic :=
  { db := db
    revision := if sqlMaxRevision db == 0 then 1 else sqlMaxRevision db
    changes := [] }

/-- The `limit` preprocessing at the top of `Generic.List`: 0 becomes the
1000000 ceiling, anything else is sent to the backend as `limit + 1`. -/
def goListLimit (limit : Int) : Int :=
  if limit == 0 then 1000000 else limit + 1

/-- `Generic.List`: choose the query by `revision`/`startKey`, then drop
tombstoned rows (`value.Del == 0` filter) from the scanned result.
Both `revision > 0` branches return `none` (a query error) in the shipped
sqlite backend: `ListResumeSQL` is left empty, and `ListRevisionSQL` equals
the plain `baseList` (the `%REV%` substitution never fires because
`baseList` contains no `%REV%` marker), so that two-placeholder query is
invoked with three arguments and fails. -/
def Generic.List (g : Generic) (revision limit : Int)
    (rangeKey startKey : String) : Option (List KeyValue) :=
  let lim := goListLimit limit
  let rows :=
    if revision ≤ 0 then some (sqlListCurrent g.db rangeKey lim)
    else if startKey.length > 0 then none
    else none
  rows.map fun l => l.filter fun r => r.del == 0

/-- `Generic.Get`: `List` with revision 0 and limit 1; first row or nothing.
(The error return of the Go version can only fire on a backend error, which
the revision-0 branch of the model never produces.) -/
def Generic.Get (g : Generic) (key : String) : Option KeyValue :=
  match g.List 0 1 key "" with
  | some kvs => kvs.head?
  | none => none

/-- `Generic.replayEvents`: run `ReplaySQL` and return every scanned row
(tombstones included). -/
def Generic.replayEvents (g : Generic) (key : String) (revision : Int) :
    Rows :=
  sqlReplay g.db key revision

/-- `Generic.mod`: the single mutation path behind Update and Delete.
Returns the (possibly unchanged) driver state together with the Go
`(*KeyValue, error)` pair. The in-place mutation of the Go receiver is made
explicit: error returns happen before any state is touched, success replaces
the table, the counter and the published-events list. -/
def Generic.mod (g : Generic) (isDelete : Bool) (key value : String)
    (revision ttl : Int) : Generic × Except DriverError KeyValue :=
  let oldKv := g.Get key
  if revision > 0 ∧ oldKv = none then
    (g, .error .notExists)
  else if revision > 0 ∧ (oldKv.map KeyValue.revision).getD 0 ≠ revision then
    (g, .error .revisionMatch)
  else
    let newRevision := g.revision + 1
    let start : KeyValue :=
      { key := key
        value := value
        revision := newRevision
        ttl := ttl
        createRevision := newRevision
        version := 1 }
    let result :=
      match oldKv with
      | some old =>
        { start with
          oldRevision := old.revision
          oldValue := old.value
          ttl := old.ttl
          createRevision := old.createRevision
          version := old.version + 1 }
      | none => start
    let result := if isDelete then { result with del := 1 } else result
    ({ db := sqlInsert g.db result
       revision := newRevision
       changes := g.changes ++ [result] }, .ok result)

/-- `Generic.Update` (the Put path): run `mod` without the delete flag; on
success reconstruct the prior record from the new one when `Version > 1`. -/
def Generic.Update (g : Generic) (key value : String) (revision ttl : Int) :
    Generic × Except DriverError (Option KeyValue × KeyValue) :=
  match g.mod false key value revision ttl with
  | (g1, .error e) => (g1, .error e)
  | (g1, .ok kv) =>
    if kv.version == 1 then (g1, .ok (none, kv))
    else
      (g1, .ok (some { kv with
                       revision := kv.oldRevision
                       value := kv.oldValue }, kv))

/-- `Generic.Delete`: panic (`none`) on a `%`-suffixed key; otherwise run
`mod` with the delete flag and an empty value, discarding the new record —
the Go code returns `nil, err`, i.e. an empty prior-record list. -/
def Generic.Delete (g : Generic) (key : String) (revision : Int) :
    Option (Generic × Except DriverError Rows) :=
  if strHasSuffix key "%" then none
  else
    match g.mod true key "" revision 0 with
    | (g1, .error e) => some (g1, .error e)
    | (g1, .ok _) => some (g1, .ok [])

/-- Client-facing record shape (`mvccpb.KeyValue` as filled by
`toKeyValue` in `kv.go`). -/
structure MvccKeyValue where
  key : String := ""
  createRevision : Int := 0
  modRevision : Int := 0
  version : Int := 0
  value : String := ""
  lease : Int := 0
deriving DecidableEq, Repr

/-- `toKeyValue` on a non-nil record. -/
def toKeyValueSome (v : KeyValue) : MvccKeyValue :=
  { key := v.key
    createRevision := v.createRevision
    modRevision := v.revision
    version := v.version
    value := v.value
    lease := v.ttl }

/-- `toKeyValue` in `kv.go` (nil maps to nil). -/
def toKeyValue : Option KeyValue → Option MvccKeyValue
  | none => none
  | some v => some (toKeyValueSome v)

/-- `pb.RangeResponse` as used by `getResponse`: header revision, records,
truncation flag and count. -/
structure GetResponse where
  headerRevision : Int := 0
  kvs : List MvccKeyValue := []
  more : Bool := false
  count : Int := 0
deriving DecidableEq, Repr

/-- Loop body of `getResponse`: raise the header revision to the record's
ModRevision when it is larger, and append the converted record. -/
def getResponseLoop (gr : GetResponse) (v : KeyValue) : GetResponse :=
  let kv := toKeyValueSome v
  { gr with
    headerRevision :=
      if kv.modRevision > gr.headerRevision then kv.modRevision
      else gr.headerRevision
    kvs := gr.kvs ++ [kv] }

/-- `getResponse` in `kv.go`: convert every record, set `Count` to the
pre-truncation record count, truncate to `limit` and set `More` when the
count exceeds a positive `limit`, and drop the records for count-only
requests. -/
def getResponse (values : List KeyValue) (limit : Int) (countOnly : Bool) :
    GetResponse :=
  let gr := values.foldl getResponseLoop {}
  let gr := { gr with count := (gr.kvs.length : Int) }
  let gr :=
    if limit > 0 ∧ gr.count > limit then
      { gr with kvs := gr.kvs.take limit.toNat, more := true }
    else gr
  if countOnly then { gr with kvs := [] } else gr

/-- `pb.DeleteRangeResponse` as filled by `getDeleteResponse`. -/
structure DeleteResponse where
  headerRevision : Int := 0
  prevKvs : List MvccKeyValue := []
deriving DecidableEq, Repr

/-- `getDeleteResponse` in `kv.go`. -/
def getDeleteResponse (values : List KeyValue) : DeleteResponse :=
  let gr := getResponse values 0 false
  { headerRevision := gr.headerRevision, prevKvs := gr.kvs }

/-- Maximum mod-revision of a record list, as the spec words it ("the
maximum mod-revision among the fetched records, 0 when none match"); used to
compare the header fold of `getResponse` against the spec. -/
def specHeaderRevision (values : List KeyValue) : Int :=
  values.foldl (fun m v => max m v.revision) 0

/-- Concrete run used by witnesses: the engine started on an empty table. -/
def wg0 : Generic := Generic.Start []

/-- Concrete run: state after Put("a","1") on the fresh store. -/
def wg1 : Generic := (wg0.mod false "a" "1" 0 0).1

/-- The stored row created by the first Put of the concrete run. -/
def wrow1 : KeyValue :=
  { id := 1, key := "a", value := "1", createRevision := 2, revision := 2,
    version := 1 }

/-- Concrete run: state after Delete("a") following the first Put. -/
def wg2 : Generic := (wg1.mod true "a" "" 0 0).1

/-- The stored tombstone row of the concrete run. -/
def wd : KeyValue :=
  { id := 2, key := "a", value := "", oldValue := "1", oldRevision := 2,
    createRevision := 2, revision := 3, version := 2, del := 1 }

/-- Concrete run: state after a second Put("a","2"). -/
def wg2b : Generic := (wg1.Update "a" "2" 0 0).1

/-- The record returned by the second Put("a","2"). -/
def w8kv : KeyValue :=
  { key := "a", value := "2", oldValue := "1", oldRevision := 2,
    createRevision := 2, revision := 3, version := 2 }

/-- The reconstructed prior record returned by the second Put. -/
def w8prior : KeyValue := { w8kv with value := "1", revision := 2 }

/-- The record returned by the first accepted Put on an empty store. -/
def firstPutKV : KeyValue :=
  { key := "a", value := "1", createRevision := 2, revision := 2, version := 1 }

/-- The record returned by an (unguarded) Put whose key is a wildcard
pattern. -/
def wildcardPutKV : KeyValue :=
  { key := "a%", value := "v", createRevision := 2, revision := 2, version := 1 }

/-- The row such a wildcard Put persists. -/
def wildcardPutRow : KeyValue := { wildcardPutKV with id := 1 }

/-! ### Helper lemmas -/

lemma sqlLimit_subset (lim : Int) (l : List KeyValue) : sqlLimit lim l ⊆ l := by
  unfold sqlLimit
  split
  · exact fun a h => h
  · exact List.take_subset _ _

lemma mem_sqlListCurrent {db : DB} {pat : String} {lim : Int} {r : KeyValue}
    (h : r ∈ sqlListCurrent db pat lim) :
    r ∈ db ∧ isCurrentRow db r = true ∧ likeMatch pat r.key = true := by
  have h2 := sqlLimit_subset _ _ h
  have h3 := List.mem_filter.mp h2
  have h4 := h3.2
  simp only [Bool.and_eq_true] at h4
  exact ⟨h3.1, h4.1, h4.2⟩

lemma list_nonpos_eq (g : Generic) (rev lim : Int) (pat sk : String)
    (hrev : rev ≤ 0) :
    g.List rev lim pat sk =
      some ((sqlListCurrent g.db pat (goListLimit lim)).filter
        fun r => r.del == 0) := by
  simp [Generic.List, hrev]

lemma mem_list_result (g : Generic) (rev lim : Int) (pat sk : String)
    (rows : List KeyValue) (r : KeyValue) (hrev : rev ≤ 0)
    (hl : g.List rev lim pat sk = some rows) (hr : r ∈ rows) :
    r ∈ g.db ∧ isCurrentRow g.db r = true ∧ likeMatch pat r.key = true ∧
      r.del = 0 := by
  rw [list_nonpos_eq g rev lim pat sk hrev] at hl
  have hrows : rows = (sqlListCurrent g.db pat (goListLimit lim)).filter
      (fun r => r.del == 0) := by
    exact (Option.some.injEq _ _).mp hl.symm
  subst hrows
  have h2 := List.mem_filter.mp hr
  have h3 := mem_sqlListCurrent h2.1
  have h4 : r.del = 0 := by
    have := h2.2
    simpa using this
  exact ⟨h3.1, h3.2.1, h3.2.2, h4⟩

lemma likeMatch_exact {pat key : String} (hp : strHasSuffix pat "%" = false)
    (h : likeMatch pat key = true) : key = pat := by
  unfold likeMatch at h
  rw [hp] at h
  simpa using h

lemma tombstone_get_none (g : Generic) (k : String) (d : KeyValue)
    (hk : strHasSuffix k "%" = false) (hdel : d.del = 1)
    (huniq : ∀ r ∈ g.db, r.key = k → isCurrentRow g.db r = true → r = d) :
    g.Get k = none := by
  unfold Generic.Get
  rw [list_nonpos_eq g 0 1 k "" le_rfl]
  have hnil : (sqlListCurrent g.db k (goListLimit 1)).filter
      (fun r => r.del == 0) = [] := by
    rw [List.eq_nil_iff_forall_not_mem]
    intro r hr
    have h2 := List.mem_filter.mp hr
    have h3 := mem_sqlListCurrent h2.1
    have hkeq : r.key = k := likeMatch_exact hk h3.2.2
    have hrd : r = d := huniq r h3.1 hkeq h3.2.1
    have h4 : r.del = 0 := by simpa using h2.2
    rw [hrd, hdel] at h4
    exact absurd h4 (by decide)
  rw [hnil]
  rfl

lemma absent_get_none (g : Generic) (k : String)
    (hk : strHasSuffix k "%" = false)
    (habs : ∀ r ∈ g.db, r.key ≠ k) :
    g.Get k = none := by
  unfold Generic.Get
  rw [list_nonpos_eq g 0 1 k "" le_rfl]
  have hnil : (sqlListCurrent g.db k (goListLimit 1)).filter
      (fun r => r.del == 0) = [] := by
    rw [List.eq_nil_iff_forall_not_mem]
    intro r hr
    have h2 := List.mem_filter.mp hr
    have h3 := mem_sqlListCurrent h2.1
    exact absurd (likeMatch_exact hk h3.2.2) (habs r h3.1)
  rw [hnil]
  rfl

/-! Mutation-path helper lemmas. -/

lemma mod_get_none_rev_pos (g : Generic) (d : Bool) (k v : String)
    (rev t : Int) (hget : g.Get k = none) (hrev : rev > 0) :
    g.mod d k v rev t = (g, .error .notExists) := by
  simp [Generic.mod, hget, hrev]

lemma mod_some_mismatch (g : Generic) (d : Bool) (k v : String) (rev t : Int)
    (old : KeyValue) (hget : g.Get k = some old) (hrev : rev > 0)
    (hne : old.revision ≠ rev) :
    g.mod d k v rev t = (g, .error .revisionMatch) := by
  simp [Generic.mod, hget, hrev, hne]

lemma mod_ok_of_some (g : Generic) (d : Bool) (k v : String) (rev t : Int)
    (old : KeyValue) (hget : g.Get k = some old)
    (hok : ¬rev > 0 ∨ old.revision = rev) :
    ∃ kv, g.mod d k v rev t =
      ({ db := sqlInsert g.db kv
         revision := g.revision + 1
         changes := g.changes ++ [kv] }, .ok kv) ∧
      kv.key = k ∧ kv.value = v ∧ kv.revision = g.revision + 1 ∧
      kv.ttl = old.ttl ∧ kv.createRevision = old.createRevision ∧
      kv.version = old.version + 1 ∧ kv.oldValue = old.value ∧
      kv.oldRevision = old.revision ∧ kv.del = (if d then 1 else 0) := by
  rcases hok with h0 | h0 <;> cases d <;>
    simp [Generic.mod, hget, h0] <;> exact ⟨_, ⟨rfl, rfl⟩, by simp⟩

lemma mod_ok_of_none (g : Generic) (d : Bool) (k v : String) (rev t : Int)
    (hget : g.Get k = none) (hrev : ¬rev > 0) :
    ∃ kv, g.mod d k v rev t =
      ({ db := sqlInsert g.db kv
         revision := g.revision + 1
         changes := g.changes ++ [kv] }, .ok kv) ∧
      kv.key = k ∧ kv.value = v ∧ kv.revision = g.revision + 1 ∧
      kv.ttl = t ∧ kv.createRevision = g.revision + 1 ∧
      kv.version = 1 ∧ kv.oldValue = "" ∧
      kv.oldRevision = 0 ∧ kv.del = (if d then 1 else 0) := by
  cases d <;> simp [Generic.mod, hget, hrev] <;> exact ⟨_, ⟨rfl, rfl⟩, by simp⟩

lemma mod_ok_elim (g g' : Generic) (d : Bool) (k v : String) (rev t : Int)
    (kv : KeyValue) (h : g.mod d k v rev t = (g', .ok kv)) :
    g' = { db := sqlInsert g.db kv
           revision := g.revision + 1
           changes := g.changes ++ [kv] } ∧
    kv.key = k ∧ kv.value = v ∧ kv.revision = g.revision + 1 ∧
    kv.del = (if d then 1 else 0) ∧
    (g.Get k = none → kv.ttl = t ∧ kv.createRevision = g.revision + 1 ∧
      kv.version = 1 ∧ kv.oldValue = "" ∧ kv.oldRevision = 0) ∧
    (∀ old, g.Get k = some old → kv.ttl = old.ttl ∧
      kv.createRevision = old.createRevision ∧ kv.version = old.version + 1 ∧
      kv.oldValue = old.value ∧ kv.oldRevision = old.revision) := by
  by_cases hrev : rev > 0
  · cases hget : g.Get k with
    | none =>
      rw [mod_get_none_rev_pos g d k v rev t hget hrev] at h
      exact absurd (congrArg Prod.snd h) (by simp)
    | some old =>
      by_cases hne : old.revision = rev
      · obtain ⟨kv0, heq, hk0, hv0, hr0, ht0, hc0, hver0, hov0, hor0, hd0⟩ :=
          mod_ok_of_some g d k v rev t old hget (.inr hne)
        rw [heq] at h
        injection h with h1 h2
        injection h2 with h2
        subst h2
        subst h1
        refine ⟨rfl, hk0, hv0, hr0, hd0, ?_, ?_⟩
        · intro hn
          exact absurd hn (by simp)
        · intro old2 hs
          injection hs with hs
          subst hs
          exact ⟨ht0, hc0, hver0, hov0, hor0⟩
      · rw [mod_some_mismatch g d k v rev t old hget hrev hne] at h
        exact absurd (congrArg Prod.snd h) (by simp)
  · cases hget : g.Get k with
    | none =>
      obtain ⟨kv0, heq, hk0, hv0, hr0, ht0, hc0, hver0, hov0, hor0, hd0⟩ :=
        mod_ok_of_none g d k v rev t hget hrev
      rw [heq] at h
      injection h with h1 h2
      injection h2 with h2
      subst h2
      subst h1
      refine ⟨rfl, hk0, hv0, hr0, hd0, ?_, ?_⟩
      · intro _
        exact ⟨ht0, hc0, hver0, hov0, hor0⟩
      · intro old2 hs
        exact absurd hs (by simp)
    | some old =>
      obtain ⟨kv0, heq, hk0, hv0, hr0, ht0, hc0, hver0, hov0, hor0, hd0⟩ :=
        mod_ok_of_some g d k v rev t old hget (.inl hrev)
      rw [heq] at h
      injection h with h1 h2
      injection h2 with h2
      subst h2
      subst h1
      refine ⟨rfl, hk0, hv0, hr0, hd0, ?_, ?_⟩
      · intro hn
        exact absurd hn (by simp)
      · intro old2 hs
        injection hs with hs
        subst hs
        exact ⟨ht0, hc0, hver0, hov0, hor0⟩

lemma mod_error_elim (g g' : Generic) (d : Bool) (k v : String) (rev t : Int)
    (e : DriverError) (h : g.mod d k v rev t = (g', .error e)) : g' = g := by
  by_cases hrev : rev > 0
  · cases hget : g.Get k with
    | none =>
      rw [mod_get_none_rev_pos g d k v rev t hget hrev] at h
      exact (congrArg Prod.fst h).symm
    | some old =>
      by_cases hne : old.revision = rev
      · obtain ⟨kv, heq, _⟩ := mod_ok_of_some g d k v rev t old hget (.inr hne)
        rw [heq] at h
        exact absurd (congrArg Prod.snd h) (by simp)
      · rw [mod_some_mismatch g d k v rev t old hget hrev hne] at h
        exact (congrArg Prod.fst h).symm
  · cases hget : g.Get k with
    | none =>
      obtain ⟨kv, heq, _⟩ := mod_ok_of_none g d k v rev t hget hrev
      rw [heq] at h
      exact absurd (congrArg Prod.snd h) (by simp)
    | some old =>
      obtain ⟨kv, heq, _⟩ := mod_ok_of_some g d k v rev t old hget (.inl hrev)
      rw [heq] at h
      exact absurd (congrArg Prod.snd h) (by simp)

/-! Response-shaping helper lemmas. -/

lemma if_lt_eq_max (h r : Int) : (if h < r then r else h) = max h r := by
  rcases lt_or_le h r with hc | hc
  · rw [if_pos hc, max_eq_right hc.le]
  · rw [if_neg (not_lt.mpr hc), max_eq_left hc]

lemma getResponse_foldl (values : List KeyValue) (gr : GetResponse) :
    values.foldl getResponseLoop gr =
      { headerRevision := values.foldl (fun m v => max m v.revision)
          gr.headerRevision
        kvs := gr.kvs ++ values.map toKeyValueSome
        more := gr.more
        count := gr.count } := by
  induction values generalizing gr with
  | nil => simp
  | cons v vs ih =>
    rw [List.foldl_cons, List.foldl_cons, ih]
    simp [getResponseLoop, toKeyValueSome, if_lt_eq_max]

lemma getResponse_count_eq (values : List KeyValue) (limit : Int)
    (countOnly : Bool) :
    (getResponse values limit countOnly).count = (values.length : Int) := by
  simp only [getResponse, getResponse_foldl]
  split <;> split <;> simp

lemma getResponse_header_eq (values : List KeyValue) (limit : Int)
    (countOnly : Bool) :
    (getResponse values limit countOnly).headerRevision =
      specHeaderRevision values := by
  simp only [getResponse, getResponse_foldl, specHeaderRevision]
  split <;> split <;> simp

lemma getResponse_kvs_le (values : List KeyValue) (limit : Int)
    (h : ¬(limit > 0 ∧ (values.length : Int) > limit)) :
    (getResponse values limit false).kvs = values.map toKeyValueSome ∧
    (getResponse values limit false).more = false := by
  simp [getResponse, getResponse_foldl, h]

lemma getResponse_kvs_gt (values : List KeyValue) (limit : Int)
    (h1 : limit > 0) (h2 : (values.length : Int) > limit) :
    (getResponse values limit false).kvs =
      (values.map toKeyValueSome).take limit.toNat ∧
    (getResponse values limit false).more = true := by
  simp [getResponse, getResponse_foldl, h1, h2]

/-! ### Claims -/

/-- C1: For every mutation (Put or Delete) called with `expectedRevision > 0`:
if the key has no current (non-tombstoned) record the mutation fails with
NotExists; if the key's current record's revision differs from
`expectedRevision` it fails with RevisionMismatch and the store state is
unchanged (no row inserted, no event published — the returned state is `g`
itself); if the current record's revision equals `expectedRevision` the
mutation succeeds. -/
theorem C1_cas_semantics (g : Generic) (isDelete : Bool) (key value : String)
    (expectedRevision ttl : Int) (hrev : expectedRevision > 0) :
    (g.Get key = none →
      g.mod isDelete key value expectedRevision ttl =
        (g, .error .notExists)) ∧
    (∀ old, g.Get key = some old → old.revision ≠ expectedRevision →
      g.mod isDelete key value expectedRevision ttl =
        (g, .error .revisionMatch)) ∧
    (∀ old, g.Get key = some old → old.revision = expectedRevision →
      ∃ kv, g.mod isDelete key value expectedRevision ttl =
        ({ db := sqlInsert g.db kv
           revision := g.revision + 1
           changes := g.changes ++ [kv] }, .ok kv)) := by
  refine ⟨?_, ?_, ?_⟩
  · intro hget
    exact mod_get_none_rev_pos g isDelete key value expectedRevision ttl hget
      hrev
  · intro old hget hne
    exact mod_some_mismatch g isDelete key value expectedRevision ttl old hget
      hrev hne
  · intro old hget he
    obtain ⟨kv, heq, _⟩ := mod_ok_of_some g isDelete key value expectedRevision
      ttl old hget (.inr he)
    exact ⟨kv, heq⟩

/-- Witness for C1 at a concrete store: a conditional Put on a missing key,
a stale conditional Put, and a correctly-conditioned Put. -/
theorem C1_cas_semantics_witness :
    wg1.mod false "b" "x" 5 0 = (wg1, .error .notExists) ∧
    wg1.mod false "a" "x" 5 0 = (wg1, .error .revisionMatch) ∧
    (∃ kv, wg1.mod false "a" "2" 2 0 =
      ({ db := sqlInsert wg1.db kv
         revision := wg1.revision + 1
         changes := wg1.changes ++ [kv] }, .ok kv)) := by
  refine ⟨?_, ?_, ?_⟩
  · exact (C1_cas_semantics wg1 false "b" "x" 5 0 (by decide)).1 (by decide)
  · exact (C1_cas_semantics wg1 false "a" "x" 5 0 (by decide)).2.1 wrow1
      (by decide) (by decide)
  · exact (C1_cas_semantics wg1 false "a" "2" 2 0 (by decide)).2.2 wrow1
      (by decide) (by decide)

/-- C2 counterexample: on an empty store the counter is initialized to 1 and
`mod` pre-increments it, so the first accepted Put is assigned revision 2
(and createRevision 2), not revision 1 as the claim states. -/
theorem C2_counterexample :
    (Generic.Start []).revision = 1 ∧
    ((Generic.Start []).Update "a" "1" 0 0).2 = .ok (none, firstPutKV) ∧
    firstPutKV.revision = 2 ∧ firstPutKV.createRevision = 2 ∧
    firstPutKV.version = 1 ∧ ¬firstPutKV.revision = 1 := by
  decide

/-- C2 (amended): starting from an empty store the revision counter is
initialized to 1 and each accepted mutation is assigned the pre-incremented
counter value, so the first accepted Put returns a record with revision=2,
version=1, createRevision=2 and no prior record; every accepted mutation's
revision equals the previous counter value plus one (hence strictly larger
than all previously assigned revisions, never reused), and a failed mutation
leaves the state — counter included — unchanged and gets no record. -/
theorem C2_revision_allocation (g : Generic) (isDelete : Bool)
    (key value : String) (revision ttl : Int) :
    (Generic.Start []).revision = 1 ∧
    (∀ g' kv, g.mod isDelete key value revision ttl = (g', .ok kv) →
      kv.revision = g.revision + 1 ∧ g'.revision = g.revision + 1) ∧
    (∀ g' e, g.mod isDelete key value revision ttl = (g', .error e) →
      g' = g) ∧
    ((Generic.Start []).Update "a" "1" 0 0).2 = .ok (none, firstPutKV) ∧
    firstPutKV.revision = 2 ∧ firstPutKV.version = 1 ∧
    firstPutKV.createRevision = 2 := by
  refine ⟨by decide, ?_, ?_, by decide, by decide, by decide, by decide⟩
  · intro g' kv h
    obtain ⟨hg, _, _, hr, _⟩ :=
      mod_ok_elim g g' isDelete key value revision ttl kv h
    refine ⟨hr, ?_⟩
    rw [hg]
  · intro g' e h
    exact mod_error_elim g g' isDelete key value revision ttl e h

/-- Witness for C2 (amended) at a concrete store: the first accepted Put's
record carries the incremented counter, and a failed conditional Put leaves
the state unchanged. -/
theorem C2_revision_allocation_witness :
    (firstPutKV.revision = wg0.revision + 1 ∧
      wg1.revision = wg0.revision + 1) ∧
    wg1 = wg1 := by
  constructor
  · exact (C2_revision_allocation wg0 false "a" "1" 0 0).2.1 wg1 firstPutKV
      (by decide)
  · exact (C2_revision_allocation wg1 false "a" "x" 5 0).2.2.1 wg1
      .revisionMatch (by decide)

/-- C3: for every accepted mutation on a key with a current record, the new
row carries forward ttl and createRevision, sets version to the prior
version plus 1, and sets oldValue/oldRevision from the prior record; with no
current record the new row starts a fresh chain: version=1, createRevision
equal to the newly allocated revision, empty oldValue and oldRevision 0. -/
theorem C3_chain_fields (g g' : Generic) (isDelete : Bool)
    (key value : String) (revision ttl : Int) (kv : KeyValue)
    (h : g.mod isDelete key value revision ttl = (g', .ok kv)) :
    (∀ old, g.Get key = some old →
      kv.ttl = old.ttl ∧ kv.createRevision = old.createRevision ∧
      kv.version = old.version + 1 ∧ kv.oldValue = old.value ∧
      kv.oldRevision = old.revision) ∧
    (g.Get key = none →
      kv.version = 1 ∧ kv.createRevision = kv.revision ∧
      kv.revision = g.revision + 1 ∧ kv.oldValue = "" ∧
      kv.oldRevision = 0) := by
  obtain ⟨_, _, _, hr, _, hnone, hsome⟩ :=
    mod_ok_elim g g' isDelete key value revision ttl kv h
  refine ⟨fun old hget => hsome old hget, fun hget => ?_⟩
  obtain ⟨_, hc, hv, hov, hor⟩ := hnone hget
  refine ⟨hv, ?_, hr, hov, hor⟩
  rw [hc, hr]

/-- Witness for C3: the second Put("a","2") of the concrete run carries
the first row's chain fields forward. -/
theorem C3_chain_fields_witness :
    w8kv.ttl = wrow1.ttl ∧ w8kv.createRevision = wrow1.createRevision ∧
    w8kv.version = wrow1.version + 1 ∧ w8kv.oldValue = wrow1.value ∧
    w8kv.oldRevision = wrow1.revision := by
  exact (C3_chain_fields wg1 wg2b false "a" "2" 0 0 w8kv (by decide)).1 wrow1
    (by decide)

/-- C4: after a key is deleted (its latest row is a tombstone), Get on that
key returns none and current-value List never includes it (tombstoned rows
are filtered out of listing results), while Replay of that key up to the
deletion's revision does return the tombstone row. -/
theorem C4_tombstone_visibility (g : Generic) (k : String) (d : KeyValue)
    (hk : strHasSuffix k "%" = false) (hd : d ∈ g.db) (hkey : d.key = k)
    (hdel : d.del = 1) (hcur : isCurrentRow g.db d = true)
    (huniq : ∀ r ∈ g.db, r.key = k → isCurrentRow g.db r = true → r = d) :
    g.Get k = none ∧
    (∀ rev lim pat rows, rev ≤ 0 → g.List rev lim pat "" = some rows →
      ∀ r ∈ rows, r.key ≠ k) ∧
    d ∈ g.replayEvents k d.revision := by
  refine ⟨tombstone_get_none g k d hk hdel huniq, ?_, ?_⟩
  · intro rev lim pat rows hrev hl r hr hkr
    obtain ⟨hrdb, hrcur, _, hrdel⟩ :=
      mem_list_result g rev lim pat "" rows r hrev hl hr
    have hrd : r = d := huniq r hrdb hkr hrcur
    rw [hrd, hdel] at hrdel
    exact absurd hrdel (by decide)
  · unfold Generic.replayEvents sqlReplay
    rw [List.mem_filter]
    refine ⟨hd, ?_⟩
    have h1 : likeMatch k d.key = true := by
      unfold likeMatch
      rw [hk]
      simp [hkey]
    simp [h1]

/-- Witness for C4 on the concrete Put-then-Delete run: the deleted key is
invisible to Get and current List, but Replay returns the tombstone. -/
theorem C4_tombstone_visibility_witness :
    wg2.Get "a" = none ∧
    (∀ r ∈ ([] : List KeyValue), r.key ≠ "a") ∧
    wd ∈ wg2.replayEvents "a" wd.revision := by
  have h := C4_tombstone_visibility wg2 "a" wd (by decide) (by decide)
    (by decide) (by decide) (by decide) (by decide)
  exact ⟨h.1, h.2.1 0 5 "%" [] le_rfl (by decide), h.2.2⟩

/-- C5: for every List/Get call with a positive limit L the backend is asked
for L+1 rows (limit 0 becomes the large fixed ceiling 1000000); at the
response layer, if more than L records came back the record set is truncated
to exactly L and the "more" flag is set, otherwise all records are returned
with the flag unset. -/
theorem C5_pagination (g : Generic) (pat : String) (limit : Int)
    (values : List KeyValue) (hpos : limit > 0) :
    goListLimit limit = limit + 1 ∧
    goListLimit 0 = 1000000 ∧
    g.List 0 limit pat "" =
      some ((sqlListCurrent g.db pat (limit + 1)).filter
        fun r => r.del == 0) ∧
    ((values.length : Int) > limit →
      ((getResponse values limit false).kvs.length : Int) = limit ∧
      (getResponse values limit false).more = true) ∧
    ((values.length : Int) ≤ limit →
      (getResponse values limit false).kvs = values.map toKeyValueSome ∧
      (getResponse values limit false).more = false) := by
  have hne : limit ≠ 0 := by omega
  have hfix : goListLimit limit = limit + 1 := by simp [goListLimit, hne]
  refine ⟨hfix, by decide, ?_, ?_, ?_⟩
  · rw [list_nonpos_eq g 0 limit pat "" le_rfl, hfix]
  · intro hgt
    obtain ⟨hkvs, hmore⟩ := getResponse_kvs_gt values limit hpos hgt
    refine ⟨?_, hmore⟩
    rw [hkvs, List.length_take, List.length_map]
    omega
  · intro hle
    exact getResponse_kvs_le values limit (by omega)

/-- Witness for C5: listing the two-row history with limit 1 truncates to
one record and sets the more flag. -/
theorem C5_pagination_witness :
    goListLimit 1 = 2 ∧
    ((getResponse wg2.db 1 false).kvs.length : Int) = 1 ∧
    (getResponse wg2.db 1 false).more = true := by
  have h := C5_pagination wg0 "a" 1 wg2.db (by decide)
  obtain ⟨h1, _, _, h4, _⟩ := h
  have h5 := h4 (by decide)
  exact ⟨h1, h5.1, h5.2⟩

/-- C6 counterexample: the claim says every point mutation with a wildcard
key is rejected and writes nothing, but Update (the Put path) performs no
wildcard check — a Put whose key is a multi-key pattern succeeds and
persists a row whose key is the pattern itself. -/
theorem C6_counterexample :
    strHasSuffix "a%" "%" = true ∧
    ((Generic.Start []).Update "a%" "v" 0 0).2 = .ok (none, wildcardPutKV) ∧
    ((Generic.Start []).Update "a%" "v" 0 0).1.db = [wildcardPutRow] := by
  decide

/-- C6 (amended): Delete rejects a wildcard-pattern key outright with a
panic (modelled as `none`) before touching the store, but Update (the Put
path) performs no such check: an unconditional Put with a wildcard key
proceeds as an ordinary mutation and inserts a row. -/
theorem C6_wildcard_guard (g : Generic) (key : String) (revision : Int)
    (h : strHasSuffix key "%" = true) :
    g.Delete key revision = none ∧
    (∀ value ttl, ∃ pr kv, g.Update key value 0 ttl =
      ({ db := sqlInsert g.db kv
         revision := g.revision + 1
         changes := g.changes ++ [kv] }, .ok (pr, kv))) := by
  constructor
  · simp [Generic.Delete, h]
  · intro value ttl
    have hex : ∃ kv, g.mod false key value 0 ttl =
        ({ db := sqlInsert g.db kv
           revision := g.revision + 1
           changes := g.changes ++ [kv] }, .ok kv) := by
      cases hget : g.Get key with
      | none =>
        obtain ⟨kv, heq, _⟩ := mod_ok_of_none g false key value 0 ttl hget
          (by omega)
        exact ⟨kv, heq⟩
      | some old =>
        obtain ⟨kv, heq, _⟩ := mod_ok_of_some g false key value 0 ttl old hget
          (.inl (by omega))
        exact ⟨kv, heq⟩
    obtain ⟨kv, heq⟩ := hex
    by_cases hv : kv.version == 1
    · exact ⟨none, kv, by simp [Generic.Update, heq, hv]⟩
    · exact ⟨some { kv with revision := kv.oldRevision, value := kv.oldValue },
        kv, by simp [Generic.Update, heq, hv]⟩

/-- Witness for C6 (amended): Delete of "a%" panics on the fresh store while
Put of "a%" succeeds. -/
theorem C6_wildcard_guard_witness :
    wg0.Delete "a%" 7 = none ∧
    (∃ pr kv, wg0.Update "a%" "v" 0 0 =
      ({ db := sqlInsert wg0.db kv
         revision := wg0.revision + 1
         changes := wg0.changes ++ [kv] }, .ok (pr, kv))) := by
  have h := C6_wildcard_guard wg0 "a%" 7 (by decide)
  exact ⟨h.1, h.2 "v" 0⟩

/-- C7 counterexample: a successful Delete of an existing key returns an
empty prior-record list (the Go code returns nil), not the removed record,
even though the key's current record existed. -/
theorem C7_counterexample :
    wg1.Get "a" = some wrow1 ∧
    wg1.Delete "a" 0 = some (wg2, .ok []) ∧
    (getDeleteResponse []).prevKvs = [] := by
  decide

/-- C7 (amended): a successful Delete appends a tombstone row (del=1) to the
table rather than removing rows, but always returns an empty prior-record
list, so the delete response's PrevKvs is empty. -/
theorem C7_delete_appends_tombstone (g g' : Generic) (key : String)
    (revision : Int) (res : List KeyValue)
    (h : g.Delete key revision = some (g', .ok res)) :
    res = [] ∧
    (∃ kv, g.mod true key "" revision 0 = (g', .ok kv) ∧ kv.del = 1 ∧
      g'.db = g.db ++ [{ kv with id := sqlNextId g.db }]) ∧
    getDeleteResponse res = { headerRevision := 0, prevKvs := [] } := by
  unfold Generic.Delete at h
  by_cases hw : strHasSuffix key "%"
  · rw [if_pos hw] at h
    exact absurd h (by simp)
  · rw [if_neg hw] at h
    rcases hmod : g.mod true key "" revision 0 with ⟨g1, r⟩
    rw [hmod] at h
    cases r with
    | error e => exact absurd h (by simp)
    | ok kv =>
      injection h with h0
      injection h0 with h1 h2
      injection h2 with h2
      subst h2
      subst h1
      obtain ⟨hstate, _, _, _, hdel0, _, _⟩ :=
        mod_ok_elim g g1 true key "" revision 0 kv hmod
      refine ⟨rfl, ⟨kv, rfl, by simpa using hdel0, ?_⟩, by decide⟩
      rw [hstate]
      rfl

/-- Witness for C7 (amended) on the concrete run: the Delete of "a" returns
no prior records and appends the tombstone row. -/
theorem C7_delete_appends_tombstone_witness :
    ([] : List KeyValue) = [] ∧
    (∃ kv, wg1.mod true "a" "" 0 0 = (wg2, .ok kv) ∧ kv.del = 1 ∧
      wg2.db = wg1.db ++ [{ kv with id := sqlNextId wg1.db }]) ∧
    getDeleteResponse [] = { headerRevision := 0, prevKvs := [] } :=
  C7_delete_appends_tombstone wg1 wg2 "a" 0 [] (by decide)

/-- C8: for every successful Put (Update), the returned prior record is none
exactly when the new record's version is 1; when the version is not 1 the
prior record equals the new record with value replaced by oldValue and
revision replaced by oldRevision, all other fields unchanged. -/
theorem C8_put_prior_record (g g' : Generic) (key value : String)
    (revision ttl : Int) (prior : Option KeyValue) (kv : KeyValue)
    (h : g.Update key value revision ttl = (g', .ok (prior, kv))) :
    (prior = none ↔ kv.version = 1) ∧
    (kv.version ≠ 1 →
      prior = some { kv with
                     value := kv.oldValue
                     revision := kv.oldRevision }) := by
  unfold Generic.Update at h
  rcases hmod : g.mod false key value revision ttl with ⟨g1, r⟩
  rw [hmod] at h
  cases r with
  | error e => exact absurd h (by simp)
  | ok kv0 =>
    dsimp only at h
    by_cases hv : kv0.version == 1
    · rw [if_pos hv] at h
      have h3 := Except.ok.inj (congrArg Prod.snd h)
      have hp : prior = none := (congrArg Prod.fst h3).symm
      have hkv : kv = kv0 := (congrArg Prod.snd h3).symm
      have hv1 : kv0.version = 1 := by simpa using hv
      constructor
      · rw [hp, hkv, hv1]
        simp
      · intro hne
        rw [hkv] at hne
        exact absurd hv1 hne
    · rw [if_neg hv] at h
      have h3 := Except.ok.inj (congrArg Prod.snd h)
      have hp : prior = some { kv0 with
          revision := kv0.oldRevision
          value := kv0.oldValue } := (congrArg Prod.fst h3).symm
      have hkv : kv = kv0 := (congrArg Prod.snd h3).symm
      have hvne : kv0.version ≠ 1 := by simpa using hv
      constructor
      · constructor
        · intro hpn
          rw [hp] at hpn
          exact absurd hpn (by simp)
        · intro h1
          rw [hkv] at h1
          exact absurd h1 hvne
      · intro _
        rw [hp, hkv]

/-- Witness for C8: the second Put("a","2") of the concrete run returns a
prior record reconstructed from the new record. -/
theorem C8_put_prior_record_witness :
    (some w8prior = none ↔ w8kv.version = 1) ∧
    (w8kv.version ≠ 1 →
      some w8prior = some { w8kv with
                            value := w8kv.oldValue
                            revision := w8kv.oldRevision }) :=
  C8_put_prior_record wg1 wg2b "a" "2" 0 0 (some w8prior) w8kv (by decide)

/-- C9: because the current-record lookup inside the mutation path filters
out tombstones, for every key whose latest row is a tombstone a mutation
with expectedRevision > 0 fails with NotExists, and an unconditional
mutation (Put, or Delete via mod) succeeds and begins a fresh chain —
version=1, createRevision equal to the newly allocated revision, empty
oldValue and oldRevision 0 — while the older rows for the key remain in
storage; moreover for a key with no rows at all (a key that never existed)
an unconditional mutation, Delete included, succeeds the same way and
starts a fresh chain. -/
theorem C9_tombstone_fresh_chain (g : Generic) (k : String) (d : KeyValue)
    (hk : strHasSuffix k "%" = false) (hd : d ∈ g.db) (hkey : d.key = k)
    (hdel : d.del = 1) (hcur : isCurrentRow g.db d = true)
    (huniq : ∀ r ∈ g.db, r.key = k → isCurrentRow g.db r = true → r = d) :
    (∀ isDelete value revision ttl, revision > 0 →
      g.mod isDelete k value revision ttl = (g, .error .notExists)) ∧
    (∀ isDelete value ttl, ∃ kv,
      g.mod isDelete k value 0 ttl =
        ({ db := sqlInsert g.db kv
           revision := g.revision + 1
           changes := g.changes ++ [kv] }, .ok kv) ∧
      kv.version = 1 ∧ kv.createRevision = g.revision + 1 ∧
      kv.oldValue = "" ∧ kv.oldRevision = 0 ∧
      d ∈ (g.mod isDelete k value 0 ttl).1.db) ∧
    (∀ k2, strHasSuffix k2 "%" = false → (∀ r ∈ g.db, r.key ≠ k2) →
      (∀ isDelete value ttl, ∃ kv,
        g.mod isDelete k2 value 0 ttl =
          ({ db := sqlInsert g.db kv
             revision := g.revision + 1
             changes := g.changes ++ [kv] }, .ok kv) ∧
        kv.version = 1 ∧ kv.createRevision = g.revision + 1 ∧
        kv.oldValue = "" ∧ kv.oldRevision = 0) ∧
      (∃ kv, g.Delete k2 0 =
        some ({ db := sqlInsert g.db kv
                revision := g.revision + 1
                changes := g.changes ++ [kv] }, .ok []) ∧
        kv.del = 1 ∧ kv.version = 1 ∧ kv.createRevision = g.revision + 1 ∧
        kv.oldValue = "" ∧ kv.oldRevision = 0)) := by
  have hget : g.Get k = none := tombstone_get_none g k d hk hdel huniq
  refine ⟨?_, ?_, ?_⟩
  · intro isDelete value revision ttl hrev
    exact mod_get_none_rev_pos g isDelete k value revision ttl hget hrev
  · intro isDelete value ttl
    obtain ⟨kv, heq, _, _, _, _, hc, hver, hov, hor, _⟩ :=
      mod_ok_of_none g isDelete k value 0 ttl hget (by omega)
    refine ⟨kv, heq, hver, hc, hov, hor, ?_⟩
    rw [heq]
    exact List.mem_append_left _ hd
  · intro k2 hk2 habs
    have hget2 : g.Get k2 = none := absent_get_none g k2 hk2 habs
    constructor
    · intro isDelete value ttl
      obtain ⟨kv, heq, _, _, _, _, hc, hver, hov, hor, _⟩ :=
        mod_ok_of_none g isDelete k2 value 0 ttl hget2 (by omega)
      exact ⟨kv, heq, hver, hc, hov, hor⟩
    · obtain ⟨kv, heq, _, _, _, _, hc, hver, hov, hor, hdl⟩ :=
        mod_ok_of_none g true k2 "" 0 0 hget2 (by omega)
      refine ⟨kv, ?_, by simpa using hdl, hver, hc, hov, hor⟩
      simp [Generic.Delete, hk2, heq]

/-- Witness for C9 on the concrete run: after the tombstone on "a", a
conditional mutation fails with NotExists, an unconditional Put starts a
fresh chain over the surviving history rows, and an unconditional Delete of
the never-existing key "b" also succeeds with a fresh tombstone chain. -/
theorem C9_tombstone_fresh_chain_witness :
    wg2.mod false "a" "x" 9 0 = (wg2, .error .notExists) ∧
    (∃ kv, wg2.mod false "a" "x" 0 0 =
      ({ db := sqlInsert wg2.db kv
         revision := wg2.revision + 1
         changes := wg2.changes ++ [kv] }, .ok kv) ∧
      kv.version = 1 ∧ kv.createRevision = wg2.revision + 1 ∧
      kv.oldValue = "" ∧ kv.oldRevision = 0 ∧
      wd ∈ (wg2.mod false "a" "x" 0 0).1.db) ∧
    (∃ kv, wg2.Delete "b" 0 =
      some ({ db := sqlInsert wg2.db kv
              revision := wg2.revision + 1
              changes := wg2.changes ++ [kv] }, .ok []) ∧
      kv.del = 1 ∧ kv.version = 1 ∧ kv.createRevision = wg2.revision + 1 ∧
      kv.oldValue = "" ∧ kv.oldRevision = 0) := by
  have h := C9_tombstone_fresh_chain wg2 "a" wd (by decide) (by decide)
    (by decide) (by decide) (by decide) (by decide)
  exact ⟨h.1 false "x" 9 0 (by decide), h.2.1 false "x" 0,
    (h.2.2 "b" (by decide) (by decide)).2⟩

/-- C10: in every Get/List response, Count is computed before truncation, so
when truncation occurs (fetched records exceed a positive limit) Count
equals the number of fetched records and strictly exceeds the number of
records returned; the header revision equals the maximum mod-revision among
the fetched records, 0 when none match. -/
theorem C10_count_header (values : List KeyValue) (limit : Int) :
    (getResponse values limit false).count = (values.length : Int) ∧
    (getResponse values limit false).headerRevision =
      specHeaderRevision values ∧
    (limit > 0 → (values.length : Int) > limit →
      (getResponse values limit false).count >
        ((getResponse values limit false).kvs.length : Int)) ∧
    (values = [] → (getResponse values limit false).headerRevision = 0) := by
  refine ⟨getResponse_count_eq values limit false,
    getResponse_header_eq values limit false, ?_, ?_⟩
  · intro h1 h2
    obtain ⟨hkvs, _⟩ := getResponse_kvs_gt values limit h1 h2
    rw [getResponse_count_eq values limit false, hkvs, List.length_take,
      List.length_map]
    omega
  · intro h
    subst h
    rw [getResponse_header_eq [] limit false]
    rfl

/-- Witness for C10: the truncated listing of the two-row history has
Count 2 but returns a single record. -/
theorem C10_count_header_witness :
    (getResponse wg2.db 1 false).count = ((wg2.db.length : Int)) ∧
    (getResponse wg2.db 1 false).count >
      ((getResponse wg2.db 1 false).kvs.length : Int) ∧
    (getResponse ([] : List KeyValue) 1 false).headerRevision = 0 := by
  have h := C10_count_header wg2.db 1
  have h0 := C10_count_header ([] : List KeyValue) 1
  exact ⟨h.1, h.2.2.1 (by decide) (by decide), h0.2.2.2 rfl⟩

end EtcdShim
